import Mathlib

/-!
Shallow embedding of the deterministic binary encoding subsystem of the
picorv32 AES co-processor repository:

* the block-oriented hex codec (scripts/image_to_hex.py, scripts/hex_to_image.py);
* the instruction-format encoders, the program assembler and the memory-image
  builder (generate_program_hex.py).

Python integers are modelled as Lean Int / Nat.  Python's floor shift
x >> k on an int is Int division by 2^k (Lean's Int `/` is Euclidean
division, which coincides with floor division for a positive divisor),
and x & (2^j - 1) is x % 2^j (Lean's Int `%` is always nonnegative for a
positive modulus, as in Python).  Byte strings are lists of Nat (each byte
below 256, stated as a hypothesis where it matters); text lines are lists
of Char.  Fallible operations (bytes.fromhex, int(s,16), sys.exit)
return Option.
-/

/-! ## Hex text primitives (shared by both Python scripts) -/

/-- The lowercase hex digit character for a value below 16, computed from
the character codes (48 is the code of the zero digit, 97 that of the
letter a). -/
def hexDigitChar (d : Nat) : Char :=
  Char.ofNat (if d < 10 then 48 + d else 87 + d)

/-- Hex digits of a number, most significant first; fuel-driven so that the
kernel can evaluate it (the fuel is always sufficient, see hexDigits). -/
def hexDigitsAux : Nat → Nat → List Nat
  | 0, _ => []
  | fuel+1, n => if n < 16 then [n] else hexDigitsAux fuel (n / 16) ++ [n % 16]

/-- Hex digits of n, most significant first, at least one digit: the digit
sequence Python's "%x" formatting produces for a nonnegative int. -/
def hexDigits (n : Nat) : List Nat := hexDigitsAux (n + 1) n

/-- Python's format(n, "08x"): lowercase hex, zero-padded on the left to a
minimum width of 8 characters (longer numbers are NOT truncated). -/
def pyHex08 (n : Nat) : List Char :=
  let ds := (hexDigits n).map hexDigitChar
  List.replicate (8 - ds.length) '0' ++ ds

/-! ## Encoder: scripts/image_to_hex.py -/

/-- Number of PKCS7-style padding bytes: (16 - (len(data) % 16)) % 16. -/
def padding_needed (n : Nat) : Nat := (16 - n % 16) % 16

/-- The data after padding: when padding_needed > 0 the script appends
bytes([padding_needed] * padding_needed); appending an empty list when the
count is zero is the same thing. -/
def paddedData (data : List Nat) : List Nat :=
  data ++ List.replicate (padding_needed data.length) (padding_needed data.length)

/-- Slices data[i:i+16] for i in range(0, len(data), 16); fuel-driven
(the initial fuel, the list length, always suffices). -/
def chunksAux : Nat → List Nat → List (List Nat)
  | 0, _ => []
  | _+1, [] => []
  | fuel+1, a :: l => ((a :: l).take 16) :: chunksAux fuel ((a :: l).drop 16)

/-- The successive 16-byte slices of a byte string. -/
def chunks16 (l : List Nat) : List (List Nat) := chunksAux l.length l

/-- Python block.hex(): two lowercase hex characters per byte. -/
def blockToHex (block : List Nat) : List Char :=
  (block.map (fun b => [hexDigitChar (b / 16), hexDigitChar (b % 16)])).flatten

/-- image_to_hex, as the list of text lines written to the output file:
first the metadata line (the original length in "08x" format followed by
24 zero characters), then one 32-character line per 16-byte block. -/
def image_to_hex (data : List Nat) : List (List Char) :=
  (pyHex08 data.length ++ List.replicate 24 '0')
    :: (chunks16 (paddedData data)).map blockToHex

/-! ## Decoder: scripts/hex_to_image.py -/

/-- ASCII whitespace as stripped by Python str.strip() (the non-ASCII
whitespace Python also strips never occurs in the formats involved). -/
def isPySpace (c : Char) : Bool :=
  [' ', '\t', '\n', '\r', '\x0b', '\x0c'].contains c

/-- Python line.strip(). -/
def pyStrip (l : List Char) : List Char :=
  ((l.dropWhile isPySpace).reverse.dropWhile isPySpace).reverse

/-- The list comprehension of hex_to_image: strip every line, keep those
that are nonempty and do not start with the comment marker "//". -/
def keptLines (lines : List (List Char)) : List (List Char) :=
  (lines.map pyStrip).filter (fun l => !l.isEmpty && !(l.take 2 == ['/', '/']))

/-- Hex digit test, both cases, as accepted by int(s,16) and bytes.fromhex,
expressed over the character codes (digits are 48..57, the lowercase hex
letters 97..102, the uppercase ones 65..70). -/
def isHexDigitChar (c : Char) : Bool :=
  (47 < c.toNat && c.toNat < 58) || (96 < c.toNat && c.toNat < 103) ||
    (64 < c.toNat && c.toNat < 71)

/-- Value of a hex digit character, from its code (meaningful only on hex
digits, the sole characters the decoder feeds it). -/
def hexCharVal (c : Char) : Nat :=
  if c.toNat < 58 then c.toNat - 48
  else if c.toNat < 71 then c.toNat - 55
  else c.toNat - 87

/-- Python int(s, 16) restricted to the shapes the decoder can meet: none
(ValueError) for an empty string or a non-hex-digit character; other forms
Python would also accept (signs, underscores, an "0x" marker, surrounding
whitespace) are not modelled, since no line arising here contains them. -/
def pyIntHex (cs : List Char) : Option Nat :=
  if !cs.isEmpty && cs.all isHexDigitChar then
    some (cs.foldl (fun acc c => acc * 16 + hexCharVal c) 0)
  else none

/-- Python bytes.fromhex: consumes hex digits two at a time; none
(ValueError) on an odd digit count or a non-hex character.  (Python also
skips blanks between pairs; not modelled, no line arising here has any.) -/
def fromhex : List Char → Option (List Nat)
  | [] => some []
  | [_] => none
  | c1 :: c2 :: rest =>
    if isHexDigitChar c1 && isHexDigitChar c2 then
      match fromhex rest with
      | some bs => some ((hexCharVal c1 * 16 + hexCharVal c2) :: bs)
      | none => none
    else none

/-- The decoding loop over the data lines: bytes of every line,
concatenated in order; none as soon as one line fails bytes.fromhex
(the uncaught ValueError aborts the script).  The warning printed for a
line whose character count differs from 32 is output-only and does not
alter the computation. -/
def decodeBlocks : List (List Char) → Option (List Nat)
  | [] => some []
  | l :: rest =>
    match fromhex l, decodeBlocks rest with
    | some bs, some acc => some (bs ++ acc)
    | _, _ => none

/-- hex_to_image on the list of raw input lines, as the byte string written
to the output file; none models sys.exit(1) on an empty hex file and an
uncaught ValueError from int(s,16) or bytes.fromhex. -/
def hex_to_image (lines : List (List Char)) : Option (List Nat) :=
  match keptLines lines with
  | [] => none
  | metadata :: data_blocks =>
    match pyIntHex (metadata.take 8) with
    | none => none
    | some original_size =>
      match decodeBlocks data_blocks with
      | none => none
      | some all_bytes => some (all_bytes.take original_size)

/-! ## Instruction encoders: generate_program_hex.py

Register and selector fields are Nat (the call sites only ever pass small
nonnegative literals); immediates are Int, since the source passes the
negative branch offset -4. -/

/-- encode_i_type: ((imm & 0xFFF) << 20) | (rs1 << 15) | (funct3 << 12)
| (rd << 7) | opcode. -/
def encode_i_type (opcode funct3 rd rs1 : Nat) (imm : Int) : Nat :=
  ((imm % 4096).toNat <<< 20) ||| (rs1 <<< 15) ||| (funct3 <<< 12) |||
    (rd <<< 7) ||| opcode

/-- encode_r_type: (funct7 << 25) | (rs2 << 20) | (rs1 << 15)
| (funct3 << 12) | (rd << 7) | opcode. -/
def encode_r_type (opcode funct3 funct7 rd rs1 rs2 : Nat) : Nat :=
  (funct7 <<< 25) ||| (rs2 <<< 20) ||| (rs1 <<< 15) ||| (funct3 <<< 12) |||
    (rd <<< 7) ||| opcode

/-- encode_s_type: imm_11_5 = (imm >> 5) & 0x7F, imm_4_0 = imm & 0x1F,
packed as (imm_11_5 << 25) | (rs2 << 20) | (rs1 << 15) | (funct3 << 12)
| (imm_4_0 << 7) | opcode. -/
def encode_s_type (opcode funct3 rs1 rs2 : Nat) (imm : Int) : Nat :=
  let imm_11_5 := ((imm / 32) % 128).toNat
  let imm_4_0 := (imm % 32).toNat
  (imm_11_5 <<< 25) ||| (rs2 <<< 20) ||| (rs1 <<< 15) ||| (funct3 <<< 12) |||
    (imm_4_0 <<< 7) ||| opcode

/-- encode_b_type: imm_12 = (imm >> 12) & 1, imm_10_5 = (imm >> 5) & 0x3F,
imm_4_1 = (imm >> 1) & 0xF, imm_11 = (imm >> 11) & 1, packed as
(imm_12 << 31) | (imm_10_5 << 25) | (rs2 << 20) | (rs1 << 15)
| (funct3 << 12) | (imm_4_1 << 8) | (imm_11 << 7) | opcode. -/
def encode_b_type (opcode funct3 rs1 rs2 : Nat) (imm : Int) : Nat :=
  let imm_12 := ((imm / 4096) % 2).toNat
  let imm_10_5 := ((imm / 32) % 64).toNat
  let imm_4_1 := ((imm / 2) % 16).toNat
  let imm_11 := ((imm / 2048) % 2).toNat
  (imm_12 <<< 31) ||| (imm_10_5 <<< 25) ||| (rs2 <<< 20) ||| (rs1 <<< 15) |||
    (funct3 <<< 12) ||| (imm_4_1 <<< 8) ||| (imm_11 <<< 7) ||| opcode

/-- addi rd, rs1, imm. -/
def addi (rd rs1 : Nat) (imm : Int) : Nat := encode_i_type 0b0010011 0b000 rd rs1 imm

/-- lw rd, offset(rs1). -/
def lw (rd rs1 : Nat) (offset : Int) : Nat := encode_i_type 0b0000011 0b010 rd rs1 offset

/-- sw rs2, offset(rs1); note the source swaps rs1/rs2 positionally here. -/
def sw (rs2 rs1 : Nat) (offset : Int) : Nat := encode_s_type 0b0100011 0b010 rs1 rs2 offset

/-- beqz rs1, offset = beq rs1, x0, offset. -/
def beqz (rs1 : Nat) (offset : Int) : Nat := encode_b_type 0b1100011 0b000 rs1 0 offset

/-- AES_LOAD_PT: the source passes rd = 0 and its (rs2, rs1) arguments
into the rs2 and rs1 fields respectively. -/
def aes_load_pt (rs2 rs1 : Nat) : Nat := encode_r_type 0b0001011 0b000 0b0100000 0 rs1 rs2

/-- AES_LOAD_KEY. -/
def aes_load_key (rs2 rs1 : Nat) : Nat := encode_r_type 0b0001011 0b000 0b0100001 0 rs1 rs2

/-- AES_START. -/
def aes_start : Nat := encode_r_type 0b0001011 0b000 0b0100010 0 0 0

/-- AES_READ. -/
def aes_read (rd rs1 : Nat) : Nat := encode_r_type 0b0001011 0b000 0b0100011 rd rs1 0

/-- AES_STATUS. -/
def aes_status (rd : Nat) : Nat := encode_r_type 0b0001011 0b000 0b0100100 rd 0 0

/-- nop = addi x0, x0, 0. -/
def nop : Nat := addi 0 0 0

/-! ## Program assembler and memory image: generate_program_hex.py -/

/-- FIPS-197 test vector plaintext. -/
def PLAINTEXT : Nat := 0x00112233445566778899AABBCCDDEEFF

/-- FIPS-197 test vector key. -/
def KEY : Nat := 0x000102030405060708090A0B0C0D0E0F

/-- generate_program: the exact instruction sequence the source appends. -/
def generate_program : List Nat :=
  [addi 1 0 1, addi 2 0 2, addi 3 0 3,
   addi 6 0 0x100, addi 4 0 0x200, addi 12 0 0x300]
  ++ ((List.range 4).map (fun i => [lw 5 6 (Int.ofNat (4 * i)), aes_load_pt 5 i])).flatten
  ++ ((List.range 4).map (fun i => [lw 5 4 (Int.ofNat (4 * i)), aes_load_key 5 i])).flatten
  ++ [aes_start]
  ++ [aes_status 7, beqz 7 (-4)]
  ++ ((List.range 4).map (fun i => [aes_read (8 + i) i, sw (8 + i) 12 (Int.ofNat (4 * i))])).flatten
  ++ [beqz 0 0]

/-- The four 32-bit little-end-first words of the plaintext. -/
def pt_words : List Nat :=
  [(PLAINTEXT >>> 0) &&& 0xFFFFFFFF, (PLAINTEXT >>> 32) &&& 0xFFFFFFFF,
   (PLAINTEXT >>> 64) &&& 0xFFFFFFFF, (PLAINTEXT >>> 96) &&& 0xFFFFFFFF]

/-- The four 32-bit little-end-first words of the key. -/
def key_words : List Nat :=
  [(KEY >>> 0) &&& 0xFFFFFFFF, (KEY >>> 32) &&& 0xFFFFFFFF,
   (KEY >>> 64) &&& 0xFFFFFFFF, (KEY >>> 96) &&& 0xFFFFFFFF]

/-- generate_data, as the insertion-ordered association list of the dict:
plaintext words at word indices 0x40 + i, key words at 0x80 + i. -/
def generate_data : List (Nat × Nat) :=
  pt_words.enum.map (fun p => (0x40 + p.1, p.2))
  ++ key_words.enum.map (fun p => (0x80 + p.1, p.2))

/-- The fixed memory size of main(): 2K words. -/
def MEM_SIZE : Nat := 2048

/-- The memory array main() builds: MEM_SIZE words of nop, the program
overlaid from word 0, then the data words at their dict keys. -/
def mainMemory : List Nat :=
  let memory := List.replicate MEM_SIZE nop
  let withProg := generate_program.enum.foldl (fun m p => m.set p.1 p.2) memory
  generate_data.foldl (fun m p => m.set p.1 p.2) withProg

/-- The lines main() writes to program.hex: each word in "08x" format. -/
def mainHexLines : List (List Char) := mainMemory.map pyHex08

/-! ## Field extraction helpers used by the claims -/

/-- The rd field of an encoded word (bits 11..7). -/
def rdField (w : Nat) : Nat := w / 2 ^ 7 % 32

/-- The rs1 field of an encoded word (bits 19..15). -/
def rs1Field (w : Nat) : Nat := w / 2 ^ 15 % 32

/-- The rs2 field of an encoded word (bits 24..20). -/
def rs2Field (w : Nat) : Nat := w / 2 ^ 20 % 32

/-- Python (imm >> lo) & (2^width - 1): the width-bit slice of an int at
bit lo, in the infinite two's-complement reading Python's operators give. -/
def pyBits (imm : Int) (lo width : Nat) : Nat :=
  ((imm / (2 : Int) ^ lo) % (2 : Int) ^ width).toNat

/-- Reassembly of the four scattered B-format immediate fields of an
encoded word into a signed 13-bit value (bit 0 zero): the inverse reading
the spec describes. -/
def decodeBImm (w : Nat) : Int :=
  let v : Nat := w / 2 ^ 31 % 2 * 2 ^ 12 + w / 2 ^ 7 % 2 * 2 ^ 11 +
    w / 2 ^ 25 % 2 ^ 6 * 2 ^ 5 + w / 2 ^ 8 % 2 ^ 4 * 2
  (v : Int) - (if 2 ^ 12 ≤ v then 2 ^ 13 else 0)

/-- Lowercase hex digit test (used to state the output-format claims). -/
def isLowerHexChar (c : Char) : Bool :=
  ('0' ≤ c && c ≤ '9') || ('a' ≤ c && c ≤ 'f')

/-! ## Lemmas: hex digit printing and parsing -/

theorem hexDigitsAux_mem_lt (fuel : Nat) :
    ∀ n d, d ∈ hexDigitsAux fuel n → d < 16 := by
  induction fuel with
  | zero => intro n d h; simp [hexDigitsAux] at h
  | succ f ih =>
    intro n d h
    rw [hexDigitsAux] at h
    by_cases hn : n < 16
    · simp [hn] at h; omega
    · simp [hn] at h
      rcases h with h | h
      · exact ih _ _ h
      · omega

theorem hexDigitsAux_ne_nil (fuel n : Nat) : hexDigitsAux (fuel + 1) n ≠ [] := by
  rw [hexDigitsAux]
  by_cases hn : n < 16 <;> simp [hn]

theorem hexDigitsAux_foldl (fuel : Nat) :
    ∀ n, n < 16 ^ fuel →
      (hexDigitsAux fuel n).foldl (fun acc d => acc * 16 + d) 0 = n := by
  induction fuel with
  | zero => intro n h; interval_cases n; rfl
  | succ f ih =>
    intro n h
    rw [hexDigitsAux]
    by_cases hn : n < 16
    · simp [hn]
    · have hdiv : n / 16 < 16 ^ f := by
        rw [Nat.div_lt_iff_lt_mul (by norm_num)]
        calc n < 16 ^ (f + 1) := h
        _ = 16 ^ f * 16 := by ring
      simp only [hn, if_false, List.foldl_append, ih _ hdiv, List.foldl_cons,
        List.foldl_nil]
      omega

theorem hexDigitsAux_length_le (fuel : Nat) :
    ∀ n k, 0 < k → n < 16 ^ k → (hexDigitsAux fuel n).length ≤ k := by
  induction fuel with
  | zero => intro n k _ _; simp [hexDigitsAux]
  | succ f ih =>
    intro n k hk h
    rw [hexDigitsAux]
    by_cases hn : n < 16
    · simp [hn]; omega
    · have hk2 : 2 ≤ k := by
        by_contra hlt
        have : k = 1 := by omega
        subst this
        simp at h
        omega
      have hdiv : n / 16 < 16 ^ (k - 1) := by
        rw [Nat.div_lt_iff_lt_mul (by norm_num)]
        calc n < 16 ^ k := h
        _ = 16 ^ (k - 1) * 16 := by
              rw [← pow_succ]
              congr 1
              omega
      have := ih (n / 16) (k - 1) (by omega) hdiv
      simp only [hn, if_false, List.length_append, List.length_cons,
        List.length_nil]
      omega

theorem hexDigits_length_le (n : Nat) (h : n < 16 ^ 8) :
    (hexDigits n).length ≤ 8 :=
  hexDigitsAux_length_le _ n 8 (by norm_num) h

theorem hexDigits_ne_nil (n : Nat) : hexDigits n ≠ [] := hexDigitsAux_ne_nil n n

theorem pyHex08_length (n : Nat) (h : n < 16 ^ 8) : (pyHex08 n).length = 8 := by
  have h1 := hexDigits_length_le n h
  have h2 := hexDigits_ne_nil n
  have h3 : 0 < (hexDigits n).length := List.length_pos.mpr h2
  simp only [pyHex08, List.length_append, List.length_replicate, List.length_map]
  omega

theorem hexDigitChar_lower {d : Nat} (h : d < 16) :
    isLowerHexChar (hexDigitChar d) = true := by
  interval_cases d <;> decide

theorem pyHex08_chars (n : Nat) :
    ∀ c ∈ pyHex08 n, isLowerHexChar c = true := by
  intro c hc
  simp only [pyHex08, List.mem_append, List.mem_replicate, List.mem_map] at hc
  rcases hc with ⟨_, rfl⟩ | ⟨d, hd, rfl⟩
  · decide
  · exact hexDigitChar_lower (hexDigitsAux_mem_lt _ _ _ hd)

theorem hexCharVal_hexDigitChar {d : Nat} (h : d < 16) :
    hexCharVal (hexDigitChar d) = d := by
  interval_cases d <;> decide

theorem isHexDigitChar_hexDigitChar {d : Nat} (h : d < 16) :
    isHexDigitChar (hexDigitChar d) = true := by
  interval_cases d <;> decide

theorem foldl_hexCharVal_replicate_zero (k : Nat) :
    (List.replicate k '0').foldl (fun acc c => acc * 16 + hexCharVal c) 0 = 0 := by
  induction k with
  | zero => rfl
  | succ m ih => rw [List.replicate_succ]; simpa using ih

theorem foldl_hexCharVal_map (ds : List Nat) :
    ∀ a, (∀ d ∈ ds, d < 16) →
      (ds.map hexDigitChar).foldl (fun acc c => acc * 16 + hexCharVal c) a =
        ds.foldl (fun acc d => acc * 16 + d) a := by
  induction ds with
  | nil => intro a _; rfl
  | cons d t ih =>
    intro a h
    have hd : d < 16 := h d (by simp)
    simp only [List.map_cons, List.foldl_cons, hexCharVal_hexDigitChar hd]
    exact ih _ (fun x hx => h x (by simp [hx]))

theorem pyIntHex_pyHex08 (n : Nat) (h : n < 16 ^ 8) :
    pyIntHex (pyHex08 n) = some n := by
  have hne : ¬(pyHex08 n).isEmpty := by
    rw [List.isEmpty_iff_length_eq_zero, pyHex08_length n h]
    omega
  have hall : (pyHex08 n).all isHexDigitChar = true := by
    rw [List.all_eq_true]
    intro c hc
    simp only [pyHex08, List.mem_append, List.mem_replicate, List.mem_map] at hc
    rcases hc with ⟨_, rfl⟩ | ⟨d, hd, rfl⟩
    · decide
    · exact isHexDigitChar_hexDigitChar (hexDigitsAux_mem_lt _ _ _ hd)
  simp only [pyIntHex, hne, hall, Bool.not_false, Bool.and_self, if_true]
  congr 1
  simp only [pyHex08, List.foldl_append, foldl_hexCharVal_replicate_zero]
  rw [foldl_hexCharVal_map (hexDigits n) 0 (fun d hd => hexDigitsAux_mem_lt _ _ _ hd)]
  exact hexDigitsAux_foldl (n + 1) n
    (lt_of_lt_of_le (Nat.lt_pow_self (by norm_num) n)
      (Nat.pow_le_pow_right (by norm_num) (by omega)))

/-! ## Lemmas: line stripping and filtering -/

theorem dropWhile_eq_self_of_all {p : Char → Bool} :
    ∀ l : List Char, (∀ c ∈ l, p c = false) → l.dropWhile p = l := by
  intro l h
  cases l with
  | nil => rfl
  | cons a t => rw [List.dropWhile_cons_of_neg]; simp [h a (by simp)]

theorem pyStrip_eq_self (l : List Char) (h : ∀ c ∈ l, isPySpace c = false) :
    pyStrip l = l := by
  rw [pyStrip, dropWhile_eq_self_of_all l h,
    dropWhile_eq_self_of_all l.reverse (fun c hc => h c (List.mem_reverse.mp hc)),
    List.reverse_reverse]

theorem lower_hex_not_space {c : Char} (h : isLowerHexChar c = true) :
    isPySpace c = false := by
  by_contra hs
  rw [Bool.not_eq_false] at hs
  have hs2 : c = ' ' ∨ c = '\t' ∨ c = '\n' ∨ c = '\r' ∨ c = '\x0b' ∨ c = '\x0c' := by
    simpa [isPySpace] using hs
  rcases hs2 with rfl | rfl | rfl | rfl | rfl | rfl <;> exact absurd h (by decide)

theorem lower_hex_ne_slash {c : Char} (h : isLowerHexChar c = true) : c ≠ '/' := by
  intro heq
  subst heq
  exact absurd h (by decide)

theorem keptLines_eq_self (lines : List (List Char))
    (h : ∀ l ∈ lines, l ≠ [] ∧ ∀ c ∈ l, isLowerHexChar c = true) :
    keptLines lines = lines := by
  rw [keptLines]
  have hmap : lines.map pyStrip = lines := by
    conv_rhs => rw [← List.map_id lines]
    exact List.map_congr_left fun l hl =>
      pyStrip_eq_self l (fun c hc => lower_hex_not_space ((h l hl).2 c hc))
  rw [hmap, List.filter_eq_self]
  intro l hl
  obtain ⟨hne, hchars⟩ := h l hl
  cases l with
  | nil => exact absurd rfl hne
  | cons a t =>
    have ha : a ≠ '/' := lower_hex_ne_slash (hchars a (by simp))
    simp [List.take_succ_cons, ha]

/-! ## Lemmas: fromhex inverts block hex printing -/

theorem fromhex_blockToHex :
    ∀ block : List Nat, (∀ b ∈ block, b < 256) →
      fromhex (blockToHex block) = some block := by
  intro block
  induction block with
  | nil => intro _; rfl
  | cons b t ih =>
    intro h
    have hb : b < 256 := h b (by simp)
    have hhi : b / 16 < 16 := by omega
    have hlo : b % 16 < 16 := by omega
    have hcons : blockToHex (b :: t) =
        hexDigitChar (b / 16) :: hexDigitChar (b % 16) :: blockToHex t := by
      simp [blockToHex]
    rw [hcons, fromhex]
    simp only [isHexDigitChar_hexDigitChar hhi, isHexDigitChar_hexDigitChar hlo,
      Bool.and_self, if_true, ih (fun x hx => h x (by simp [hx]))]
    rw [hexCharVal_hexDigitChar hhi, hexCharVal_hexDigitChar hlo]
    congr 2
    omega

theorem decodeBlocks_map_blockToHex :
    ∀ blocks : List (List Nat), (∀ blk ∈ blocks, ∀ b ∈ blk, b < 256) →
      decodeBlocks (blocks.map blockToHex) = some blocks.flatten := by
  intro blocks
  induction blocks with
  | nil => intro _; rfl
  | cons blk rest ih =>
    intro h
    rw [List.map_cons, decodeBlocks, fromhex_blockToHex blk (h blk (by simp)),
      ih (fun x hx => h x (by simp [hx]))]
    simp

/-! ## Lemmas: 16-byte chunking -/

theorem chunksAux_flatten :
    ∀ fuel l, l.length ≤ fuel → (chunksAux fuel l).flatten = l := by
  intro fuel
  induction fuel with
  | zero =>
    intro l h
    rw [Nat.le_zero, List.length_eq_zero] at h
    subst h
    rfl
  | succ f ih =>
    intro l h
    cases l with
    | nil => rfl
    | cons a t =>
      rw [chunksAux, List.flatten_cons,
        ih ((a :: t).drop 16) (by simp at h ⊢; omega), List.take_append_drop]

theorem chunksAux_length :
    ∀ fuel l, l.length ≤ fuel → (chunksAux fuel l).length = (l.length + 15) / 16 := by
  intro fuel
  induction fuel with
  | zero =>
    intro l h
    rw [Nat.le_zero, List.length_eq_zero] at h
    subst h
    rfl
  | succ f ih =>
    intro l h
    cases l with
    | nil => rfl
    | cons a t =>
      rw [chunksAux, List.length_cons,
        ih ((a :: t).drop 16) (by simp at h ⊢; omega)]
      simp only [List.length_drop, List.length_cons]
      omega

theorem chunksAux_mem_mem :
    ∀ fuel l blk, blk ∈ chunksAux fuel l → ∀ b ∈ blk, b ∈ l := by
  intro fuel
  induction fuel with
  | zero => intro l blk h; simp [chunksAux] at h
  | succ f ih =>
    intro l blk h b hb
    cases l with
    | nil => simp [chunksAux] at h
    | cons a t =>
      rw [chunksAux] at h
      rcases List.mem_cons.mp h with rfl | h2
      · exact List.take_subset _ _ hb
      · exact List.drop_subset _ _ (ih _ _ h2 b hb)

theorem chunksAux_mem_ne_nil :
    ∀ fuel l blk, blk ∈ chunksAux fuel l → blk ≠ [] := by
  intro fuel
  induction fuel with
  | zero => intro l blk h; simp [chunksAux] at h
  | succ f ih =>
    intro l blk h
    cases l with
    | nil => simp [chunksAux] at h
    | cons a t =>
      rw [chunksAux] at h
      rcases List.mem_cons.mp h with rfl | h2
      · simp
      · exact ih _ _ h2

/-! ## Lemmas: padding -/

theorem paddedData_mem_lt (b : List Nat) (hb : ∀ x ∈ b, x < 256) :
    ∀ x ∈ paddedData b, x < 256 := by
  intro x hx
  rcases List.mem_append.mp hx with h | h
  · exact hb x h
  · have := (List.mem_replicate.mp h).2
    subst this
    simp only [padding_needed]
    omega

theorem paddedData_take (b : List Nat) : (paddedData b).take b.length = b :=
  List.take_left b _

theorem chunks16_flatten (l : List Nat) : (chunks16 l).flatten = l :=
  chunksAux_flatten _ _ (le_refl _)

theorem chunks16_length (l : List Nat) :
    (chunks16 l).length = (l.length + 15) / 16 :=
  chunksAux_length _ _ (le_refl _)

theorem hex_to_image_eval (lines rest : List (List Char)) (meta : List Char)
    (n : Nat) (bs : List Nat) (hk : keptLines lines = meta :: rest)
    (hn : pyIntHex (meta.take 8) = some n)
    (hbs : decodeBlocks rest = some bs) :
    hex_to_image lines = some (bs.take n) := by
  unfold hex_to_image
  rw [hk]
  simp only [hn, hbs]

theorem image_to_hex_lines_wf (b : List Nat) (hbytes : ∀ x ∈ b, x < 256) :
    ∀ l ∈ image_to_hex b, l ≠ [] ∧ ∀ c ∈ l, isLowerHexChar c = true := by
  intro l hl
  rw [image_to_hex] at hl
  rcases List.mem_cons.mp hl with rfl | hl2
  · refine ⟨by simp, ?_⟩
    intro c hc
    rcases List.mem_append.mp hc with h | h
    · exact pyHex08_chars _ c h
    · rw [(List.mem_replicate.mp h).2]; decide
  · obtain ⟨blk, hblk, rfl⟩ := List.mem_map.mp hl2
    have hblt : ∀ x ∈ blk, x < 256 := fun x hx =>
      paddedData_mem_lt b hbytes x (chunksAux_mem_mem _ _ _ hblk x hx)
    constructor
    · have := chunksAux_mem_ne_nil _ _ _ hblk
      cases blk with
      | nil => exact absurd rfl this
      | cons x t => simp [blockToHex]
    · intro c hc
      simp only [blockToHex, List.mem_flatten, List.mem_map] at hc
      obtain ⟨pair, ⟨x, hx, rfl⟩, hcp⟩ := hc
      have hxlt : x < 256 := hblt x hx
      rcases List.mem_cons.mp hcp with rfl | hcp2
      · exact hexDigitChar_lower (by omega)
      · rw [List.mem_singleton.mp hcp2]
        exact hexDigitChar_lower (by omega)

/-! ## Claim C4 -/

/-- C4 (counterexample): the claim predicts ceil(max(len(b),1)/16) = 1 data
line plus one metadata line for the empty byte sequence, i.e. 2 lines in
total, but the encoder emits no padding and no data block for empty input:
its output is the single metadata line. -/
theorem image_to_hex_count_claim_fails_empty :
    ¬((image_to_hex ([] : List Nat)).length =
      (max (List.length ([] : List Nat)) 1 + 15) / 16 + 1) := by decide

/-- C4 (amended): for every byte sequence b the encoder emits exactly
ceil(len(b)/16) data lines plus exactly one metadata line; max(len(b),1)
must be len(b), an empty input yielding zero data lines. -/
theorem image_to_hex_line_count (b : List Nat) :
    (image_to_hex b).length = (b.length + 15) / 16 + 1 := by
  rw [image_to_hex, List.length_cons, List.length_map, chunks16_length]
  simp only [paddedData, padding_needed, List.length_append, List.length_replicate]
  omega

/-! ## Claim C5 -/

/-- C5: when the input length N is not a multiple of 16 the encoder appends
exactly 16 - N % 16 padding bytes, each valued as the pad count itself,
before emitting data blocks (the data blocks are cut from paddedData by
definition of image_to_hex); when N is a multiple of 16 nothing is
appended. -/
theorem padding_self_describing (b : List Nat) :
    (b.length % 16 ≠ 0 →
      paddedData b =
        b ++ List.replicate (16 - b.length % 16) (16 - b.length % 16)) ∧
    (b.length % 16 = 0 → paddedData b = b) := by
  constructor
  · intro h
    have hp : padding_needed b.length = 16 - b.length % 16 := by
      rw [padding_needed]; omega
    rw [paddedData, hp]
  · intro h
    rw [paddedData, padding_needed, h]
    simp

/-- C5 witness: a 1-byte input takes 15 pad bytes of value 15; a 16-byte
input takes none. -/
theorem padding_self_describing_witness :
    paddedData [7] = [7] ++ List.replicate 15 15 ∧
    paddedData (List.replicate 16 3) = List.replicate 16 3 :=
  ⟨(padding_self_describing [7]).1 (by decide),
   (padding_self_describing (List.replicate 16 3)).2 (by decide)⟩

/-! ## Claim C6 -/

/-- C6 (amended): for every input byte sequence shorter than 2^32 bytes,
the first emitted line is exactly 32 characters: the 8 lowercase hex digits
of the original byte length, most significant first (parsing those 8
characters back recovers the length), followed by 24 zero characters.  The
length bound is necessary: format(n, "08x") does not truncate, so a
sequence of 2^32 bytes or more would make the field - and the line -
longer. -/
theorem metadata_line_format (b : List Nat) (h : b.length < 2 ^ 32) :
    (image_to_hex b).headI.length = 32 ∧
    (image_to_hex b).headI.take 8 = pyHex08 b.length ∧
    (pyHex08 b.length).length = 8 ∧
    (∀ c ∈ (image_to_hex b).headI, isLowerHexChar c = true) ∧
    pyIntHex ((image_to_hex b).headI.take 8) = some b.length ∧
    (image_to_hex b).headI.drop 8 = List.replicate 24 '0' := by
  have h16 : b.length < 16 ^ 8 := by
    have : (16 : Nat) ^ 8 = 2 ^ 32 := by norm_num
    omega
  have hhead : (image_to_hex b).headI = pyHex08 b.length ++ List.replicate 24 '0' := rfl
  have hl8 := pyHex08_length b.length h16
  have htake : (pyHex08 b.length ++ List.replicate 24 '0').take 8 = pyHex08 b.length :=
    List.take_left' hl8
  refine ⟨?_, ?_, hl8, ?_, ?_, ?_⟩
  · rw [hhead]; simp [hl8]
  · rw [hhead, htake]
  · intro c hc
    rw [hhead] at hc
    rcases List.mem_append.mp hc with hcc | hcc
    · exact pyHex08_chars _ c hcc
    · rw [(List.mem_replicate.mp hcc).2]; decide
  · rw [hhead, htake]
    exact pyIntHex_pyHex08 b.length h16
  · rw [hhead, List.drop_left' hl8]

/-- C6 witness at a 3-byte input. -/
theorem metadata_line_format_witness :
    (image_to_hex [0, 1, 2]).headI.length = 32 ∧
    (image_to_hex [0, 1, 2]).headI.take 8 = pyHex08 (List.length [0, 1, 2]) ∧
    (pyHex08 (List.length [0, 1, 2])).length = 8 ∧
    (∀ c ∈ (image_to_hex [0, 1, 2]).headI, isLowerHexChar c = true) ∧
    pyIntHex ((image_to_hex [0, 1, 2]).headI.take 8) = some (List.length [0, 1, 2]) ∧
    (image_to_hex [0, 1, 2]).headI.drop 8 = List.replicate 24 '0' :=
  metadata_line_format [0, 1, 2] (by decide)

/-! ## Claim C1 -/

/-- Lower bound on the length-field width: format(n, "08x") never yields
fewer than 8 characters. -/
theorem pyHex08_length_ge (n : Nat) : 8 ≤ (pyHex08 n).length := by
  simp only [pyHex08, List.length_append, List.length_replicate, List.length_map]
  omega

/-- General shape of a successful decode of the encoder output: whatever
value n the 8-character length-field parse yields, the decoder returns the
first n bytes of the padded data. -/
theorem hex_to_image_image_to_hex (b : List Nat) (hbytes : ∀ x ∈ b, x < 256)
    (n : Nat) (hn : pyIntHex ((pyHex08 b.length).take 8) = some n) :
    hex_to_image (image_to_hex b) = some ((paddedData b).take n) := by
  have hkept : keptLines (image_to_hex b) = image_to_hex b :=
    keptLines_eq_self _ (image_to_hex_lines_wf b hbytes)
  have hchunks : ∀ blk ∈ chunks16 (paddedData b), ∀ x ∈ blk, x < 256 :=
    fun blk hblk x hx =>
      paddedData_mem_lt b hbytes x (chunksAux_mem_mem _ _ _ hblk x hx)
  have hdec : decodeBlocks ((chunks16 (paddedData b)).map blockToHex) =
      some (paddedData b) := by
    rw [decodeBlocks_map_blockToHex _ hchunks, chunks16_flatten]
  have hmeta : pyIntHex ((pyHex08 b.length ++ List.replicate 24 '0').take 8) =
      some n := by
    rw [List.take_append_of_le_length (pyHex08_length_ge b.length)]
    exact hn
  exact hex_to_image_eval (image_to_hex b)
    ((chunks16 (paddedData b)).map blockToHex)
    (pyHex08 b.length ++ List.replicate 24 '0') n (paddedData b)
    (by rw [hkept]; rfl) hmeta hdec

/-- C1 (amended): decoding the encoder's hex-line output recovers the
original byte sequence exactly, for every byte sequence of fewer than 2^32
bytes (including the empty one).  The bound is forced by the 8-hex-digit
length field, see the counterexample. -/
theorem codec_round_trip (b : List Nat) (hbytes : ∀ x ∈ b, x < 256)
    (hlen : b.length < 2 ^ 32) :
    hex_to_image (image_to_hex b) = some b := by
  have h16 : b.length < 16 ^ 8 := by
    have : (16 : Nat) ^ 8 = 2 ^ 32 := by norm_num
    omega
  have hn : pyIntHex ((pyHex08 b.length).take 8) = some b.length := by
    have h8 := pyHex08_length b.length h16
    rw [← h8, List.take_length]
    exact pyIntHex_pyHex08 b.length h16
  rw [hex_to_image_image_to_hex b hbytes b.length hn, paddedData_take]

/-- C1 witness: a 3-byte input (which exercises the padding) decodes back
to itself. -/
theorem codec_round_trip_witness :
    hex_to_image (image_to_hex [0, 17, 255]) = some [0, 17, 255] :=
  codec_round_trip [0, 17, 255] (by decide) (by decide)

/-- C1 (counterexample): the claim quantifies over every byte sequence, but
the round trip fails for a sequence of 2^32 zero bytes: format(2^32, "08x")
is the 9-digit string 100000000, the decoder reads back only its first 8
digits (0x10000000 = 2^28) as the length, and truncates the output to 2^28
bytes. -/
theorem codec_round_trip_fails_at_two_pow_32 :
    hex_to_image (image_to_hex (List.replicate (2 ^ 32) 0)) ≠
      some (List.replicate (2 ^ 32) 0) := by
  have hlen : (List.replicate (2 ^ 32) (0 : Nat)).length = 2 ^ 32 :=
    List.length_replicate _ _
  have hbytes : ∀ x ∈ List.replicate (2 ^ 32) (0 : Nat), x < 256 := by
    intro x hx
    rw [List.eq_of_mem_replicate hx]
    omega
  have hn : pyIntHex ((pyHex08 (List.replicate (2 ^ 32) (0 : Nat)).length).take 8) =
      some (2 ^ 28) := by
    rw [hlen]
    decide
  rw [hex_to_image_image_to_hex (List.replicate (2 ^ 32) 0) hbytes (2 ^ 28) hn]
  have hpadn : padding_needed (2 ^ 32) = 0 := by decide
  have hpad : paddedData (List.replicate (2 ^ 32) 0) = List.replicate (2 ^ 32) 0 := by
    rw [paddedData, hlen, hpadn, List.replicate_zero, List.append_nil]
  rw [hpad, List.take_replicate]
  intro hcontra
  have heq := Option.some.inj hcontra
  have hlens := congrArg List.length heq
  rw [List.length_replicate, List.length_replicate] at hlens
  have hmin : (2 : Nat) ^ 28 ⊓ 2 ^ 32 = 2 ^ 28 := by norm_num
  rw [hmin] at hlens
  norm_num at hlens

/-- C6 (counterexample): for an input of 2^32 zero bytes the first emitted
line has 33 characters, not 32: the length field format does not truncate
ints of 9 or more hex digits. -/
theorem metadata_line_not_32_chars_at_two_pow_32 :
    (image_to_hex (List.replicate (2 ^ 32) 0)).headI.length ≠ 32 := by
  have hcons : image_to_hex (List.replicate (2 ^ 32) 0) =
      (pyHex08 (List.replicate (2 ^ 32) (0 : Nat)).length ++ List.replicate 24 '0') ::
        (chunks16 (paddedData (List.replicate (2 ^ 32) 0))).map blockToHex := rfl
  rw [hcons, List.headI_cons, List.length_append, List.length_replicate,
    List.length_replicate]
  have h9 : (pyHex08 (2 ^ 32)).length = 9 := by decide
  rw [h9]
  omega

/-! ## Claim C7 -/

theorem fromhex_isSome :
    ∀ (n : Nat) (l : List Char), l.length ≤ n → l.length % 2 = 0 →
      (∀ c ∈ l, isHexDigitChar c = true) → ∃ bs, fromhex l = some bs := by
  intro n
  induction n with
  | zero =>
    intro l hle _ _
    rw [Nat.le_zero, List.length_eq_zero] at hle
    subst hle
    exact ⟨[], rfl⟩
  | succ m ih =>
    intro l hle hev hhex
    match l with
    | [] => exact ⟨[], rfl⟩
    | [c] => simp at hev
    | c1 :: c2 :: rest =>
      obtain ⟨bs, hbs⟩ := ih rest (by simp at hle ⊢; omega) (by simp at hev ⊢; omega)
        (fun c hc => hhex c (by simp [hc]))
      refine ⟨(hexCharVal c1 * 16 + hexCharVal c2) :: bs, ?_⟩
      simp [fromhex, hhex c1 (by simp), hhex c2 (by simp), hbs]

theorem decodeBlocks_isSome :
    ∀ ls : List (List Char),
      (∀ l ∈ ls, l.length % 2 = 0 ∧ ∀ c ∈ l, isHexDigitChar c = true) →
      ∃ bs, decodeBlocks ls = some bs := by
  intro ls
  induction ls with
  | nil => intro _; exact ⟨[], rfl⟩
  | cons l rest ih =>
    intro h
    obtain ⟨bs1, hbs1⟩ := fromhex_isSome l.length l (le_refl _)
      (h l (by simp)).1 (h l (by simp)).2
    obtain ⟨bs2, hbs2⟩ := ih (fun x hx => h x (by simp [hx]))
    exact ⟨bs1 ++ bs2, by rw [decodeBlocks, hbs1, hbs2]⟩

/-- C7 (amended): the decoder never fails merely because a data line's hex
character count differs from 32: for every input whose kept lines start
with a parsable metadata line and whose data lines are well-formed hex
(even count of hex digits, of any length), decoding succeeds and produces
an output.  The restriction to even counts of hex digits is forced by the
counterexample: bytes.fromhex raises on an odd count or a non-hex
character, which the script does not catch. -/
theorem decoder_tolerates_wrong_width (lines : List (List Char))
    (meta : List Char) (rest : List (List Char))
    (hk : keptLines lines = meta :: rest)
    (hm : (pyIntHex (meta.take 8)).isSome = true)
    (hr : ∀ l ∈ rest, l.length % 2 = 0 ∧ ∀ c ∈ l, isHexDigitChar c = true) :
    (hex_to_image lines).isSome = true := by
  obtain ⟨n, hn⟩ := Option.isSome_iff_exists.mp hm
  obtain ⟨bs, hbs⟩ := decodeBlocks_isSome rest hr
  rw [hex_to_image_eval lines rest meta n bs hk hn hbs]
  rfl

/-- C7 witness: a 4-character data line (count differing from 32) is decoded
without failure. -/
theorem decoder_tolerates_wrong_width_witness :
    (hex_to_image [['0', '0', '0', '0', '0', '0', '0', '4'],
      ['a', 'a', 'b', 'b']]).isSome = true :=
  decoder_tolerates_wrong_width
    [['0', '0', '0', '0', '0', '0', '0', '4'], ['a', 'a', 'b', 'b']]
    ['0', '0', '0', '0', '0', '0', '0', '4'] [['a', 'a', 'b', 'b']]
    (by decide) (by decide) (by decide)

/-- C7 (counterexample): the claim promises an output for every input with
at least one non-blank non-comment line even when a data line's count
differs from 32, but a 3-character data line aborts the decoder:
bytes.fromhex raises ValueError on the odd count after the warning is
printed. -/
theorem decoder_fails_on_odd_width_line :
    hex_to_image [['0', '0', '0', '0', '0', '0', '1', '0'],
      ['a', 'b', 'c']] = none := by decide

/-! ## Lemmas: bit packing as arithmetic -/

theorem lor_shiftLeft_eq_add (x y k : Nat) (h : y < 2 ^ k) :
    (x <<< k) ||| y = x * 2 ^ k + y := by
  apply Nat.eq_of_testBit_eq
  intro i
  rw [Nat.testBit_lor, Nat.testBit_shiftLeft, Nat.mul_comm x (2 ^ k),
    Nat.testBit_mul_pow_two_add x h]
  by_cases hik : k ≤ i
  · simp [hik, Nat.not_lt.mpr hik,
      Nat.testBit_lt_two_pow
        (Nat.lt_of_lt_of_le h (Nat.pow_le_pow_right (by norm_num) hik))]
  · simp [hik, Nat.lt_of_not_le hik]

theorem int_emod_toNat_lt (x : Int) (m : Nat) (hm : 0 < m) :
    (x % (m : Int)).toNat < m := by
  have h1 : 0 ≤ x % (m : Int) := Int.emod_nonneg x (by exact_mod_cast hm.ne')
  have h2 : x % (m : Int) < m := Int.emod_lt_of_pos x (by exact_mod_cast hm)
  omega

/-- The B-format packing, rewritten from bitwise or into plain arithmetic
once the register, selector and masked-immediate fields are in range. -/
theorem encode_b_type_eq_sum (opcode funct3 rs1 rs2 : Nat) (imm : Int)
    (ho : opcode < 128) (hf : funct3 < 8) (h1 : rs1 < 32) (h2 : rs2 < 32) :
    encode_b_type opcode funct3 rs1 rs2 imm =
      ((imm / 4096) % 2).toNat * 2 ^ 31 + ((imm / 32) % 64).toNat * 2 ^ 25 +
      rs2 * 2 ^ 20 + rs1 * 2 ^ 15 + funct3 * 2 ^ 12 +
      ((imm / 2) % 16).toNat * 2 ^ 8 + ((imm / 2048) % 2).toNat * 2 ^ 7 +
      opcode := by
  have ha := int_emod_toNat_lt (imm / 4096) 2 (by norm_num)
  have hb := int_emod_toNat_lt (imm / 32) 64 (by norm_num)
  have hc := int_emod_toNat_lt (imm / 2) 16 (by norm_num)
  have hd := int_emod_toNat_lt (imm / 2048) 2 (by norm_num)
  simp only [encode_b_type]
  simp only [Nat.lor_assoc]
  rw [lor_shiftLeft_eq_add ((imm / 2048) % 2).toNat opcode 7 (by omega)]
  rw [lor_shiftLeft_eq_add ((imm / 2) % 16).toNat
    (((imm / 2048) % 2).toNat * 2 ^ 7 + opcode) 8 (by omega)]
  rw [lor_shiftLeft_eq_add funct3
    (((imm / 2) % 16).toNat * 2 ^ 8 + (((imm / 2048) % 2).toNat * 2 ^ 7 + opcode))
    12 (by omega)]
  rw [lor_shiftLeft_eq_add rs1
    (funct3 * 2 ^ 12 + (((imm / 2) % 16).toNat * 2 ^ 8 +
      (((imm / 2048) % 2).toNat * 2 ^ 7 + opcode))) 15 (by omega)]
  rw [lor_shiftLeft_eq_add rs2
    (rs1 * 2 ^ 15 + (funct3 * 2 ^ 12 + (((imm / 2) % 16).toNat * 2 ^ 8 +
      (((imm / 2048) % 2).toNat * 2 ^ 7 + opcode)))) 20 (by omega)]
  rw [lor_shiftLeft_eq_add ((imm / 32) % 64).toNat
    (rs2 * 2 ^ 20 + (rs1 * 2 ^ 15 + (funct3 * 2 ^ 12 +
      (((imm / 2) % 16).toNat * 2 ^ 8 +
        (((imm / 2048) % 2).toNat * 2 ^ 7 + opcode))))) 25 (by omega)]
  rw [lor_shiftLeft_eq_add ((imm / 4096) % 2).toNat
    (((imm / 32) % 64).toNat * 2 ^ 25 + (rs2 * 2 ^ 20 + (rs1 * 2 ^ 15 +
      (funct3 * 2 ^ 12 + (((imm / 2) % 16).toNat * 2 ^ 8 +
        (((imm / 2048) % 2).toNat * 2 ^ 7 + opcode)))))) 31 (by omega)]
  ring

/-! ## Claim C2 -/

/-- C2: the B-format encoder scatters the masked 13-bit branch immediate
exactly as specified: imm[12] is the word's bit 31 (and the word fits 32
bits), imm[10:5] sits at bits 30..25, rs2 at 24..20, rs1 at 19..15, funct3
at 14..12, imm[4:1] at bits 11..8, imm[11] at bit 7, the opcode at 6..0,
and bit 0 of the immediate is not stored; reassembling the four scattered
immediate fields of the word encoding offset -4 into a signed 13-bit value
yields -4. -/
theorem sum_extract (w A B C D r1 r2 f3 opc : Nat)
    (hw : w = A * 2 ^ 31 + B * 2 ^ 25 + r2 * 2 ^ 20 + r1 * 2 ^ 15 + f3 * 2 ^ 12 +
      C * 2 ^ 8 + D * 2 ^ 7 + opc)
    (hA : A < 2) (hB : B < 64) (hC : C < 16) (hD : D < 2)
    (ho : opc < 128) (hf : f3 < 8) (h1 : r1 < 32) (h2 : r2 < 32) :
    w < 2 ^ 32 ∧ w / 2 ^ 31 = A ∧ w / 2 ^ 25 % 2 ^ 6 = B ∧ w / 2 ^ 20 % 2 ^ 5 = r2 ∧
    w / 2 ^ 15 % 2 ^ 5 = r1 ∧ w / 2 ^ 12 % 2 ^ 3 = f3 ∧ w / 2 ^ 8 % 2 ^ 4 = C ∧
    w / 2 ^ 7 % 2 = D ∧ w % 2 ^ 7 = opc := by
  subst hw
  refine ⟨by omega, by omega, by omega, by omega, by omega, by omega, by omega,
    by omega, by omega⟩

theorem b_format_scatter (opcode funct3 rs1 rs2 : Nat) (imm : Int)
    (ho : opcode < 128) (hf : funct3 < 8) (h1 : rs1 < 32) (h2 : rs2 < 32) :
    encode_b_type opcode funct3 rs1 rs2 imm < 2 ^ 32 ∧
    encode_b_type opcode funct3 rs1 rs2 imm / 2 ^ 31 = pyBits imm 12 1 ∧
    encode_b_type opcode funct3 rs1 rs2 imm / 2 ^ 25 % 2 ^ 6 = pyBits imm 5 6 ∧
    encode_b_type opcode funct3 rs1 rs2 imm / 2 ^ 20 % 2 ^ 5 = rs2 ∧
    encode_b_type opcode funct3 rs1 rs2 imm / 2 ^ 15 % 2 ^ 5 = rs1 ∧
    encode_b_type opcode funct3 rs1 rs2 imm / 2 ^ 12 % 2 ^ 3 = funct3 ∧
    encode_b_type opcode funct3 rs1 rs2 imm / 2 ^ 8 % 2 ^ 4 = pyBits imm 1 4 ∧
    encode_b_type opcode funct3 rs1 rs2 imm / 2 ^ 7 % 2 = pyBits imm 11 1 ∧
    encode_b_type opcode funct3 rs1 rs2 imm % 2 ^ 7 = opcode ∧
    decodeBImm (encode_b_type opcode funct3 rs1 rs2 (-4)) = -4 := by
  have ha := int_emod_toNat_lt (imm / 4096) 2 (by norm_num)
  have hb := int_emod_toNat_lt (imm / 32) 64 (by norm_num)
  have hc := int_emod_toNat_lt (imm / 2) 16 (by norm_num)
  have hd := int_emod_toNat_lt (imm / 2048) 2 (by norm_num)
  have e12 : pyBits imm 12 1 = ((imm / 4096) % 2).toNat := by
    rw [pyBits]; norm_num
  have e5 : pyBits imm 5 6 = ((imm / 32) % 64).toNat := by
    rw [pyBits]; norm_num
  have e1 : pyBits imm 1 4 = ((imm / 2) % 16).toNat := by
    rw [pyBits]; norm_num
  have e11 : pyBits imm 11 1 = ((imm / 2048) % 2).toNat := by
    rw [pyBits]; norm_num
  obtain ⟨w32, q31, q25, q20, q15, q12, q8, q7, q0⟩ :=
    sum_extract (encode_b_type opcode funct3 rs1 rs2 imm)
      ((imm / 4096) % 2).toNat ((imm / 32) % 64).toNat ((imm / 2) % 16).toNat
      ((imm / 2048) % 2).toNat rs1 rs2 funct3 opcode
      (encode_b_type_eq_sum opcode funct3 rs1 rs2 imm ho hf h1 h2)
      ha hb hc hd ho hf h1 h2
  have hm4 : encode_b_type opcode funct3 rs1 rs2 (-4) =
      1 * 2 ^ 31 + 63 * 2 ^ 25 + rs2 * 2 ^ 20 + rs1 * 2 ^ 15 + funct3 * 2 ^ 12 +
      14 * 2 ^ 8 + 1 * 2 ^ 7 + opcode := by
    have hs := encode_b_type_eq_sum opcode funct3 rs1 rs2 (-4) ho hf h1 h2
    have p1 : ((-4 : Int) / 4096 % 2).toNat = 1 := by decide
    have p2 : ((-4 : Int) / 32 % 64).toNat = 63 := by decide
    have p3 : ((-4 : Int) / 2 % 16).toNat = 14 := by decide
    have p4 : ((-4 : Int) / 2048 % 2).toNat = 1 := by decide
    rw [hs, p1, p2, p3, p4]
  obtain ⟨m32, m31, m25, m20, m15, m12, m8, m7, m0⟩ :=
    sum_extract (encode_b_type opcode funct3 rs1 rs2 (-4)) 1 63 14 1
      rs1 rs2 funct3 opcode hm4 (by omega) (by omega) (by omega) (by omega)
      ho hf h1 h2
  have hdec : decodeBImm (encode_b_type opcode funct3 rs1 rs2 (-4)) = -4 := by
    simp only [decodeBImm]
    rw [m31, m25, m8, m7]
    norm_num
  exact ⟨w32, q31.trans e12.symm, q25.trans e5.symm, q20, q15, q12,
    q8.trans e1.symm, q7.trans e11.symm, q0, hdec⟩

/-- C2 witness at the source's own branch: beqz x7, -4, i.e. opcode
0b1100011, funct3 0, rs1 7, rs2 0, immediate -4. -/
theorem b_format_scatter_witness :
    encode_b_type 99 0 7 0 (-4) < 2 ^ 32 ∧
    encode_b_type 99 0 7 0 (-4) / 2 ^ 31 = pyBits (-4) 12 1 ∧
    encode_b_type 99 0 7 0 (-4) / 2 ^ 25 % 2 ^ 6 = pyBits (-4) 5 6 ∧
    encode_b_type 99 0 7 0 (-4) / 2 ^ 20 % 2 ^ 5 = 0 ∧
    encode_b_type 99 0 7 0 (-4) / 2 ^ 15 % 2 ^ 5 = 7 ∧
    encode_b_type 99 0 7 0 (-4) / 2 ^ 12 % 2 ^ 3 = 0 ∧
    encode_b_type 99 0 7 0 (-4) / 2 ^ 8 % 2 ^ 4 = pyBits (-4) 1 4 ∧
    encode_b_type 99 0 7 0 (-4) / 2 ^ 7 % 2 = pyBits (-4) 11 1 ∧
    encode_b_type 99 0 7 0 (-4) % 2 ^ 7 = 99 ∧
    decodeBImm (encode_b_type 99 0 7 0 (-4)) = -4 :=
  b_format_scatter 99 0 7 0 (-4) (by decide) (by decide) (by decide) (by decide)

/-! ## Claim C8 -/

/-- C8: the I-, S- and B-format encoders mask out-of-range immediates
rather than rejecting them: the encoding of any integer immediate equals
the encoding of that immediate reduced modulo 2^12 (2^13 for B-format).
All three encoders are total functions, so no input can raise. -/
theorem immediates_taken_mod_field_width (opcode funct3 rd rs1 rs2 : Nat)
    (imm : Int) :
    encode_i_type opcode funct3 rd rs1 imm =
      encode_i_type opcode funct3 rd rs1 (imm % 2 ^ 12) ∧
    encode_s_type opcode funct3 rs1 rs2 imm =
      encode_s_type opcode funct3 rs1 rs2 (imm % 2 ^ 12) ∧
    encode_b_type opcode funct3 rs1 rs2 imm =
      encode_b_type opcode funct3 rs1 rs2 (imm % 2 ^ 13) := by
  refine ⟨?_, ?_, ?_⟩
  · simp only [encode_i_type]
    have h : imm % 2 ^ 12 % 4096 = imm % 4096 := by omega
    rw [h]
  · simp only [encode_s_type]
    have h5 : imm % 2 ^ 12 / 32 % 128 = imm / 32 % 128 := by omega
    have h0 : imm % 2 ^ 12 % 32 = imm % 32 := by omega
    rw [h5, h0]
  · simp only [encode_b_type]
    have h12 : imm % 2 ^ 13 / 4096 % 2 = imm / 4096 % 2 := by omega
    have h5 : imm % 2 ^ 13 / 32 % 64 = imm / 32 % 64 := by omega
    have hmid : imm % 2 ^ 13 / 2 = imm / 2 % 4096 := by omega
    have h1 : imm % 2 ^ 13 / 2 % 16 = imm / 2 % 16 := by
      rw [hmid]
      omega
    have h11 : imm % 2 ^ 13 / 2048 % 2 = imm / 2048 % 2 := by omega
    rw [h12, h5, h1, h11]

/-! ## Claim C3 -/

/-- C3 (amended): in every custom coprocessor word-indexed load and read
instruction emitted by the program assembler (load-plaintext-word at
program words 7, 9, 11, 13; load-key-word at 15, 17, 19, 21;
read-result-word at 25, 27, 29, 31), the operation index i is encoded in
the source-register-1 (rs1) field, bits 19..15, of the R-format word - not
in rd or rs2. -/
theorem coprocessor_index_in_rs1_field :
    ((List.range 4).all (fun i =>
      (generate_program.getD (7 + 2 * i) 0 == aes_load_pt 5 i) &&
      (generate_program.getD (15 + 2 * i) 0 == aes_load_key 5 i) &&
      (generate_program.getD (25 + 2 * i) 0 == aes_read (8 + i) i) &&
      (rs1Field (aes_load_pt 5 i) == i) &&
      (rs1Field (aes_load_key 5 i) == i) &&
      (rs1Field (aes_read (8 + i) i) == i))) = true := by decide

/-- C3 (counterexample): the load-plaintext instruction for index 1
(program word 9) carries 0 in its rd field and 5 (the data register) in
its rs2 field - neither holds the index, which sits in rs1; likewise the
read-result instruction for index 1 (program word 27) has rd 9 and rs2 0.
This refutes the claim that the index is encoded in the rd or rs2 field. -/
theorem coprocessor_index_not_in_rd_or_rs2 :
    generate_program.getD 9 0 = aes_load_pt 5 1 ∧
    rdField (generate_program.getD 9 0) = 0 ∧
    rs2Field (generate_program.getD 9 0) = 5 ∧
    rs1Field (generate_program.getD 9 0) = 1 ∧
    generate_program.getD 27 0 = aes_read 9 1 ∧
    rdField (generate_program.getD 27 0) = 9 ∧
    rs2Field (generate_program.getD 27 0) = 0 ∧
    rs1Field (generate_program.getD 27 0) = 1 := by decide

/-! ## Claim C10 -/

/-- C10: the assembled program is exactly 34 instructions occupying word
indices 0..33, the data words occupy exactly indices 64..67 and 128..131,
and every data index is at least 34 and below the 2048-word image size, so
program and data placements are disjoint and in bounds. -/
theorem program_data_disjoint :
    generate_program.length = 34 ∧
    generate_data.map Prod.fst = [0x40, 0x41, 0x42, 0x43, 0x80, 0x81, 0x82, 0x83] ∧
    generate_data.all (fun p => decide (34 ≤ p.1) && decide (p.1 < MEM_SIZE)) =
      true := by
  refine ⟨by decide, by decide, by decide⟩

/-! ## Claim C9 -/

/-- C9: the built memory image has exactly MEM_SIZE = 2048 words and as
many emitted lines, each line is exactly 8 lowercase hex characters (so
every stored word fits 32 bits), and every word whose index is neither in
the 34-instruction program prefix nor among the data indices equals the
no-op encoding addi x0, x0, 0. -/
theorem foldl_set_length (l : List (Nat × Nat)) :
    ∀ m : List Nat,
      (l.foldl (fun m p => m.set p.1 p.2) m).length = m.length := by
  induction l with
  | nil => intro m; rfl
  | cons q t ih =>
    intro m
    rw [List.foldl_cons, ih (m.set q.1 q.2), List.length_set]

theorem foldl_set_mem (l : List (Nat × Nat)) :
    ∀ (m : List Nat) (x : Nat), x ∈ l.foldl (fun m p => m.set p.1 p.2) m →
      x ∈ m ∨ ∃ p ∈ l, x = p.2 := by
  induction l with
  | nil => intro m x h; exact Or.inl h
  | cons q t ih =>
    intro m x h
    rw [List.foldl_cons] at h
    rcases ih (m.set q.1 q.2) x h with h2 | ⟨p, hp, rfl⟩
    · rcases List.mem_or_eq_of_mem_set h2 with h3 | rfl
      · exact Or.inl h3
      · exact Or.inr ⟨q, by simp, rfl⟩
    · exact Or.inr ⟨p, by simp [hp], rfl⟩

theorem foldl_set_getD_ne (l : List (Nat × Nat)) :
    ∀ (m : List Nat) (i : Nat), (∀ p ∈ l, p.1 ≠ i) →
      (l.foldl (fun m p => m.set p.1 p.2) m).getD i 0 = m.getD i 0 := by
  induction l with
  | nil => intro m i _; rfl
  | cons q t ih =>
    intro m i h
    rw [List.foldl_cons, ih (m.set q.1 q.2) i (fun p hp => h p (by simp [hp])),
      List.getD_eq_getElem?_getD, List.getD_eq_getElem?_getD,
      List.getElem?_set_ne (h q (by simp))]

theorem mainMemory_words_lt (x : Nat) (hx : x ∈ mainMemory) : x < 2 ^ 32 := by
  have hprog : (generate_program.enum.all (fun p => p.2 < 2 ^ 32)) = true := by
    decide
  have hdata : (generate_data.all (fun p => p.2 < 2 ^ 32)) = true := by decide
  rw [mainMemory] at hx
  rcases foldl_set_mem _ _ _ hx with h1 | ⟨p, hp, rfl⟩
  · rcases foldl_set_mem _ _ _ h1 with h2 | ⟨p, hp, rfl⟩
    · rw [List.eq_of_mem_replicate h2]
      decide
    · exact of_decide_eq_true (List.all_eq_true.mp hprog p hp)
  · exact of_decide_eq_true (List.all_eq_true.mp hdata p hp)

/-! ## Claim C9 -/

/-- C9: the built memory image has exactly MEM_SIZE = 2048 words and as
many emitted lines; each emitted line is exactly 8 lowercase hex
characters (every stored word fits 32 bits); and every word whose index is
at least the 34-instruction program length and not among the data indices
equals the no-op encoding addi x0, x0, 0.  No word outside the configured
count exists: the overlays preserve the length 2048. -/
theorem memory_image_wf :
    mainMemory.length = 2048 ∧
    mainHexLines.length = 2048 ∧
    (∀ l ∈ mainHexLines, l.length = 8 ∧ ∀ c ∈ l, isLowerHexChar c = true) ∧
    (∀ i, 34 ≤ i → i < 2048 → (∀ p ∈ generate_data, p.1 ≠ i) →
      mainMemory.getD i 0 = nop) := by
  have hlen : mainMemory.length = 2048 := by
    rw [mainMemory, foldl_set_length, foldl_set_length, List.length_replicate]
    rfl
  refine ⟨hlen, ?_, ?_, ?_⟩
  · rw [mainHexLines, List.length_map, hlen]
  · intro l hl
    obtain ⟨w, hw, rfl⟩ := List.mem_map.mp hl
    have hwlt : w < 16 ^ 8 := by
      have := mainMemory_words_lt w hw
      have h2 : (16 : Nat) ^ 8 = 2 ^ 32 := by norm_num
      omega
    exact ⟨pyHex08_length w hwlt, pyHex08_chars w⟩
  · intro i hi hi2 hnd
    have hprogidx : (generate_program.enum.all (fun p => p.1 < 34)) = true := by
      decide
    rw [mainMemory, foldl_set_getD_ne _ _ _ hnd,
      foldl_set_getD_ne _ _ _ (fun p hp => by
        have := of_decide_eq_true (List.all_eq_true.mp hprogidx p hp)
        omega),
      List.getD_eq_getElem?_getD, List.getElem?_replicate]
    have hlt : i < MEM_SIZE := hi2
    simp [hlt]

/-- C9 witness: the image word at index 100 (outside both the program
prefix and the data placements) is the no-op; shown by applying the
theorem at i = 100. -/
theorem memory_image_wf_witness :
    mainMemory.getD 100 0 = nop :=
  memory_image_wf.2.2.2 100 (by decide) (by decide) (by decide)

example : hexDigits 0 = [0] := by decide
example : pyHex08 0x100 = ['0', '0', '0', '0', '0', '1', '0', '0'] := by decide
example : (hexDigits (2 ^ 32)).length = 9 := by decide
example : nop = 0x00000013 := by decide
example : beqz 7 (-4) = 0xFE038EE3 := by decide
example : image_to_hex [] = [('0' :: List.replicate 31 '0')] := by decide
example : hex_to_image [List.replicate 32 '0'] = some [] := by decide
example : generate_program.length = 34 := by decide
